import Mathlib

/-!
# lua-openssl, `src/openssl.c`: the top-level binding functions

A shallow embedding of `openssl_hex`, `openssl_error_string`,
`openssl_random_bytes`, `openssl_object` and `luaopen_openssl`.

Conventions of the embedding.

* A Lua string is a list of bytes with an explicit length (it may hold NUL
  bytes); where the C code hands such a string to a function that reads a C
  string, the function sees the bytes up to the first NUL (`cstr`).
* A C function of the binding takes the argument list of the Lua call and
  gives a `LuaResult`: the values returned to Lua, a raised argument error
  (`luaL_argerror` does not return), or a fault (a NULL pointer is
  dereferenced).
* Functions of the Lua C API and of the OpenSSL library are not part of
  `openssl.c`.  The Lua API functions used are written out after the Lua 5.1
  reference manual; the string/number coercions of the host are taken as
  parameters (`Host`).  OpenSSL functions whose result is data of the library
  (random bytes, the OID table, error texts) are taken as parameters; the
  big-number conversions and the error queue are written out after their manual
  pages.
* Allocation succeeds; a block obtained from `malloc` holds arbitrary bytes,
  taken as a parameter (`junk`).  Lengths are natural numbers: the calls
  embedded are those whose strings are shorter than 2^28 bytes, where `int` and
  `size_t` agree and the big-number functions set no limit on the length.
-/

namespace LuaOpenssl

/-! ## Definitions: Lua values and the Lua C API -/

/-- One byte (`char`). -/
abbrev Byte := Fin 256

/-- Lua string: bytes with an explicit length. -/
abbrev LuaString := List Byte

/-- Bytes of a text (one byte per character; used for ASCII texts). -/
def lstr (s : String) : LuaString := s.toList.map (fun c => Fin.ofNat c.toNat)

/-- Value at a stack index of a Lua call; `none` is `LUA_TNONE`, an index
beyond the arguments. Numbers are the integer-valued ones. -/
inductive LuaValue where
  | none
  | nil
  | boolean (b : Bool)
  | number (n : Int)
  | string (s : LuaString)
  | userdata (tname : String) (ptr : Nat)
  deriving DecidableEq, Repr

/-- Outcome of a C function called from Lua. -/
inductive LuaResult where
  | returned (vals : List LuaValue)
  | argerror (narg : Nat) (msg : String)
  | fault
  deriving DecidableEq, Repr

/-- Coercions between strings and numbers done by the Lua host. -/
structure Host where
  str2number : LuaString → Option Int
  number2str : Int → LuaString

/-- Argument `i` (1-based) of the call. -/
def arg (args : List LuaValue) (i : Nat) : LuaValue := args.getD (i - 1) LuaValue.none

/-- Lua API `lua_isnoneornil`. -/
def lua_isnoneornil : LuaValue → Bool
  | .none => true
  | .nil => true
  | _ => false

/-- Lua API `lua_toboolean`: false for `false`, `nil` and a missing argument. -/
def lua_toboolean : LuaValue → Bool
  | .none => false
  | .nil => false
  | .boolean b => b
  | _ => true

/-- Lua API `lua_isnumber`: a number or a string convertible to a number. -/
def lua_isnumber (H : Host) : LuaValue → Bool
  | .number _ => true
  | .string s => (H.str2number s).isSome
  | _ => false

/-- Lua API `lua_tointeger`: 0 when the value is not convertible. -/
def lua_tointeger (H : Host) : LuaValue → Int
  | .number n => n
  | .string s => (H.str2number s).getD 0
  | _ => 0

/-- Lua API `luaL_typename`. -/
def luaL_typename : LuaValue → String
  | .none => "no value"
  | .nil => "nil"
  | .boolean _ => "boolean"
  | .number _ => "number"
  | .string _ => "string"
  | .userdata _ _ => "userdata"

/-- Conversion of a `lua_Integer` to a C `int` (32 bits, two's complement). -/
def toCInt (n : Int) : Int := (n + 2147483648) % 4294967296 - 2147483648

/-- Lua API `luaL_checkint`: the argument as an `int`, or a raised error. -/
def luaL_checkint (H : Host) (narg : Nat) (v : LuaValue) : Except LuaResult Int :=
  if lua_isnumber H v then .ok (toCInt (lua_tointeger H v))
  else .error (.argerror narg ("number expected, got " ++ luaL_typename v))

/-- Lua API `luaL_checklstring` (and `luaL_checkstring`): a string, or a number
rendered as a string, or a raised error. -/
def luaL_checklstring (H : Host) (narg : Nat) (v : LuaValue) : Except LuaResult LuaString :=
  match v with
  | .string s => .ok s
  | .number n => .ok (H.number2str n)
  | _ => .error (.argerror narg ("string expected, got " ++ luaL_typename v))

/-- Lua API `luaL_optstring`: the default when the argument is missing or nil. -/
def luaL_optstring (H : Host) (narg : Nat) (v : LuaValue) (d : LuaString) :
    Except LuaResult LuaString :=
  if lua_isnoneornil v then .ok d else luaL_checklstring H narg v

/-- The C string a `const char*` into a Lua string denotes: up to the first NUL. -/
def cstr (s : LuaString) : LuaString := s.takeWhile (fun b => b != 0)

/-! ## Definitions: memory blocks -/

/-- Block of `n` bytes from `malloc`/`OPENSSL_malloc`: its content is whatever
the allocator left there. -/
def malloc (junk : Nat → Byte) (n : Nat) : List Byte := (List.range n).map junk

/-- Writing `bytes` at the start of a block; `none` when the block is too short. -/
def writeAt0 (block bytes : List Byte) : Option (List Byte) :=
  if bytes.length ≤ block.length then some (bytes ++ block.drop bytes.length) else none

/-! ## Definitions: OpenSSL big numbers and `openssl_hex` -/

/-- Big number of the provider: a sign and a magnitude. -/
structure BIGNUM where
  neg : Bool
  mag : Nat
  deriving DecidableEq, Repr

/-- Value of a big-endian byte sequence. -/
def beValue (s : List Byte) : Nat := s.foldl (fun acc b => acc * 256 + b.val) 0

/-- OpenSSL `BN_bin2bn(s, len, NULL)`: the non-negative number whose big-endian
bytes are `s`. -/
def BN_bin2bn (s : LuaString) : BIGNUM := { neg := false, mag := beValue s }

/-- Big-endian bytes of `n` without a leading zero byte, by recursion on a
bound `fuel` for the number of bytes. -/
def beBytesFuel : Nat → Nat → List Byte
  | 0, _ => []
  | fuel + 1, n => if n = 0 then [] else beBytesFuel fuel (n / 256) ++ [Fin.ofNat (n % 256)]

/-- Minimal big-endian byte sequence of `n` (empty for 0). -/
def beBytes (n : Nat) : List Byte := beBytesFuel n n

/-- OpenSSL `BN_bn2bin(B, to)`: the bytes written at `to`, `BN_num_bytes(B)` of
them, the magnitude in big-endian form. -/
def BN_bn2bin (B : BIGNUM) : List Byte := beBytes B.mag

/-- Entry `d` of the table `"0123456789ABCDEF"`. -/
def hexChar (d : Nat) : Byte := if d < 10 then Fin.ofNat (48 + d) else Fin.ofNat (55 + d)

/-- OpenSSL `BN_bn2hex`: an optional `-`, then `0` for zero and otherwise two
upper-case hexadecimal digits for each byte of the magnitude. -/
def BN_bn2hex (B : BIGNUM) : List Byte :=
  (if B.neg then [(45 : Byte)] else []) ++
  (if B.mag = 0 then [(48 : Byte)] else [])
    ++ (beBytes B.mag).flatMap (fun b => [hexChar (b.val / 16), hexChar (b.val % 16)])

/-- C library `isxdigit`. -/
def isxdigit (c : Byte) : Bool :=
  (48 ≤ c.val && c.val ≤ 57) || (97 ≤ c.val && c.val ≤ 102) || (65 ≤ c.val && c.val ≤ 70)

/-- Value of a hexadecimal digit as `BN_hex2bn` reads it (0 for other bytes). -/
def hexVal (c : Byte) : Nat :=
  if 48 ≤ c.val ∧ c.val ≤ 57 then c.val - 48
  else if 97 ≤ c.val ∧ c.val ≤ 102 then c.val - 97 + 10
  else if 65 ≤ c.val ∧ c.val ≤ 70 then c.val - 65 + 10
  else 0

/-- Value of a run of hexadecimal digits, most significant first. -/
def hexValue (ds : List Byte) : Nat := ds.foldl (fun acc c => acc * 16 + hexVal c) 0

/-- OpenSSL `BN_hex2bn(&B, a)` with `B == NULL` before the call: the value of
`B` afterwards (`none` = still NULL).  An empty C string leaves `B` NULL.  A
leading `-` gives the sign; the longest run of hexadecimal digits after it is
the magnitude and what follows the run is ignored.  When the run is empty,
OpenSSL up to 1.0.2 stores zero and later versions leave `B` NULL
(`rejectNoDigits`). -/
def BN_hex2bn (rejectNoDigits : Bool) (a : LuaString) : Option BIGNUM :=
  match cstr a with
  | [] => none
  | c :: rest =>
    let neg := c == 45
    let body := if neg then rest else c :: rest
    let ds := body.takeWhile isxdigit
    if ds.isEmpty && rejectNoDigits then none
    else some { neg := neg, mag := hexValue ds }

/-- Lower case of an ASCII letter, the step of `strlwr` on one byte. -/
def tolower (c : Byte) : Byte := if 65 ≤ c.val ∧ c.val ≤ 90 then Fin.ofNat (c.val + 32) else c

/-- Modelled from the spec: `strlwr` is not defined in `openssl.c`; the
encoder is to "force lowercase", so the upper-case ASCII letters of the text
are replaced by their lower-case forms, in place. -/
def strlwr (h : List Byte) : List Byte := h.map tolower

/-- C library `strlen`. -/
def strlen (h : List Byte) : Nat := (cstr h).length

/-- Function `openssl_hex` of `openssl.c` (lines 23-52). -/
def openssl_hex (H : Host) (rejectNoDigits : Bool) (junk : Nat → Byte)
    (args : List LuaValue) : LuaResult :=
  match luaL_checklstring H 1 (arg args 1) with
  | .error e => e
  | .ok s =>
    let l := s.length
    let encode := if lua_isnoneornil (arg args 2) then true else lua_toboolean (arg args 2)
    if encode then
      let B := BN_bin2bn s
      let h := strlwr (BN_bn2hex B)
      let hl := strlen h
      .returned [.string (h.take hl)]
    else
      match BN_hex2bn rejectNoDigits s with
      | none => .fault
      | some B =>
        let hl := l / 2
        let h := malloc junk (hl + 1)
        match writeAt0 h (BN_bn2bin B) with
        | none => .fault
        | some h =>
          let h := h.set hl 0
          .returned [.string (h.take hl)]

/-- Host used in the closed examples: no string is convertible to a number. -/
def plainHost : Host := { str2number := fun _ => none, number2str := fun _ => [] }

/-- The lower-case hexadecimal text `openssl_hex` produces for the bytes `bs`. -/
def lowerHex (bs : List Byte) : List Byte :=
  strlwr (bs.flatMap (fun b => [hexChar (b.val / 16), hexChar (b.val % 16)]))

/-! ## Definitions: the error queue and `openssl_error_string` -/

/-- Error queue of the calling thread: the codes (`unsigned long`), earliest
first. -/
abbrev ErrQueue := List Nat

/-- OpenSSL `ERR_get_error`: returns the earliest code and removes it from the
queue; 0 when the queue is empty. -/
def ERR_get_error : ErrQueue → Nat × ErrQueue
  | [] => (0, [])
  | e :: es => (e, es)

/-- OpenSSL `ERR_clear_error`: empties the queue. -/
def ERR_clear_error (_ : ErrQueue) : ErrQueue := []

/-- OpenSSL `ERR_print_errors_fp`: takes entries off the queue and prints them
until `ERR_get_error_line_data` gives 0. The codes printed, and the queue left. -/
def ERR_print_errors_fp : ErrQueue → List Nat × ErrQueue
  | [] => ([], [])
  | e :: es =>
    if e = 0 then ([], es)
    else ((e :: (ERR_print_errors_fp es).1), (ERR_print_errors_fp es).2)

/-- Conversion of an `unsigned long` to `lua_Integer` (`ptrdiff_t`, 64 bits,
two's complement) in `lua_pushinteger`. -/
def toLuaInteger (v : Nat) : Int :=
  (((v : Int) + 9223372036854775808) % 18446744073709551616) - 9223372036854775808

/-- The text `lua_pushstring(L, buf)` pushes after
`ERR_error_string_n(val, buf, 1024)`: at most 1023 bytes, up to the first NUL. -/
def errorMessage (errText : Nat → LuaString) (val : Nat) : LuaString :=
  cstr ((errText val).take 1023)

/-- What one call of `openssl_error_string` leaves behind. -/
structure ErrorCall where
  result : LuaResult
  queue : ErrQueue
  printed : List Nat
  deriving DecidableEq, Repr

/-- Function `openssl_error_string` of `openssl.c` (lines 78-99); `errText` is
the text `ERR_error_string_n` formats for a code. -/
def openssl_error_string (errText : Nat → LuaString) (q : ErrQueue)
    (args : List LuaValue) : ErrorCall :=
  let verbose := lua_toboolean (arg args 1)
  let val := (ERR_get_error q).1
  let q1 := (ERR_get_error q).2
  let pushed : List LuaValue :=
    if val ≠ 0 then [.number (toLuaInteger val), .string (errorMessage errText val)] else []
  let printed := if verbose then (ERR_print_errors_fp q1).1 else []
  let q2 := if verbose then (ERR_print_errors_fp q1).2 else q1
  { result := .returned pushed, queue := ERR_clear_error q2, printed := printed }

/-- The result of `error(false)` called `k` times in a row from the queue `q`:
the results in order, and the queue afterwards. -/
def errorCalls (errText : Nat → LuaString) : Nat → ErrQueue → List LuaResult × ErrQueue
  | 0, q => ([], q)
  | k + 1, q =>
    let c := openssl_error_string errText q [.boolean false]
    (c.result :: (errorCalls errText k c.queue).1, (errorCalls errText k c.queue).2)

/-- The `(code, message)` pair returned for the code `c`. -/
def errorPair (errText : Nat → LuaString) (c : Nat) : LuaResult :=
  .returned [.number (toLuaInteger c), .string (errorMessage errText c)]

/-- The call returned two values: a code and a message. -/
def isPair (r : LuaResult) : Prop := ∃ code msg, r = .returned [.number code, .string msg]

/-! ## Definitions: `openssl_random_bytes` and `openssl_object` -/

/-- Call made by the binding into OpenSSL, the C library or a sub-module. -/
inductive Call where
  | named (fn : String)
  | lua_setfield (key : String)
  | malloc (size : Int)
  | free
  | RAND_bytes (num : Int)
  | RAND_pseudo_bytes (num : Int)
  | OBJ_nid2obj (nid : Int)
  | OBJ_txt2nid (s : LuaString)
  | OBJ_create (oid sn ln : LuaString)
  deriving DecidableEq, Repr

/-- The provider's table of object identifiers at the time of a call: the
answers of `OBJ_nid2obj` (`none` = NULL), `OBJ_txt2nid` and `OBJ_create`. -/
structure ObjTable where
  OBJ_nid2obj : Int → Option Nat
  OBJ_txt2nid : LuaString → Int
  OBJ_create : LuaString → LuaString → LuaString → Int

/-- OpenSSL constant `NID_undef`. -/
def NID_undef : Int := 0

/-- Modelled from the spec: the macro `PUSH_OBJECT` of `private.h`, which is
not part of the sources at hand. It pushes an OID handle, an opaque wrapper
around the object, of the named class. -/
def PUSH_OBJECT (obj : Nat) (tname : String) : LuaValue := .userdata tname obj

/-- Function `openssl_object` of `openssl.c` (lines 192-231). -/
def openssl_object (H : Host) (T : ObjTable) (args : List LuaValue) : LuaResult × List Call :=
  if lua_isnumber H (arg args 1) then
    match luaL_checkint H 1 (arg args 1) with
    | .error e => (e, [])
    | .ok nid =>
      match T.OBJ_nid2obj nid with
      | some obj => (.returned [PUSH_OBJECT obj "openssl.asn1_object"], [.OBJ_nid2obj nid])
      | none => (.returned [.nil], [.OBJ_nid2obj nid])
  else
    match luaL_checklstring H 1 (arg args 1) with
    | .error e => (e, [])
    | .ok oid =>
      if lua_isnoneornil (arg args 2) then
        match luaL_checklstring H 2 (arg args 2) with
        | .error e => (e, [])
        | .ok name =>
          match luaL_optstring H 3 (arg args 3) name with
          | .error e => (e, [])
          | .ok aliasStr =>
            if T.OBJ_create (cstr oid) (cstr name) (cstr aliasStr) = NID_undef then
              (.returned [.boolean false], [.OBJ_create (cstr oid) (cstr name) (cstr aliasStr)])
            else
              (.returned [.boolean true], [.OBJ_create (cstr oid) (cstr name) (cstr aliasStr)])
      else
        let nid := T.OBJ_txt2nid (cstr oid)
        if nid ≠ NID_undef then
          match T.OBJ_nid2obj nid with
          | some obj =>
            (.returned [PUSH_OBJECT obj "openssl.asn1_object"],
              [.OBJ_txt2nid (cstr oid), .OBJ_nid2obj nid])
          | none => (.returned [.nil], [.OBJ_txt2nid (cstr oid), .OBJ_nid2obj nid])
        else
          (.returned [.nil], [.OBJ_txt2nid (cstr oid)])

/-- Table used in the closed examples: nothing is registered, and `OBJ_create`
accepts every request with the NID 1000. -/
def emptyTable : ObjTable :=
  { OBJ_nid2obj := fun _ => none, OBJ_txt2nid := fun _ => NID_undef,
    OBJ_create := fun _ _ _ => 1000 }

/-! ## Definitions: `luaopen_openssl` -/

/-- The preprocessor symbols `luaopen_openssl` depends on. -/
structure BuildConfig where
  LOAD_ENGINE_CUSTOM : Bool
  OPENSSL_SYS_WINDOWS : Bool
  LUA_VERSION_NUM : Nat
  EVP_PKEY_EC : Bool
  OPENSSL_HAVE_TS : Bool

/-- The set-up calls at the head of `luaopen_openssl` (lines 271-282). -/
def globalSetup : List Call :=
  [.named "CRYPTO_thread_setup",
   .named "OpenSSL_add_all_ciphers",
   .named "OpenSSL_add_all_digests",
   .named "SSL_library_init",
   .named "ERR_load_ERR_strings",
   .named "ERR_load_EVP_strings",
   .named "ENGINE_load_dynamic",
   .named "ENGINE_load_openssl"]

/-- Function `luaopen_openssl` of `openssl.c` (lines 269-362): the calls it
makes, in order. The function has no static variable and reads no flag. -/
def luaopen_openssl (cfg : BuildConfig) : List Call :=
  globalSetup
  ++ (if cfg.LOAD_ENGINE_CUSTOM then [.named "LOAD_ENGINE_CUSTOM"] else [])
  ++ (if cfg.OPENSSL_SYS_WINDOWS then [.named "RAND_screen"] else [])
  ++ (if cfg.LUA_VERSION_NUM = 501 then [.named "luaL_register"]
      else if cfg.LUA_VERSION_NUM = 502 then [.named "lua_newtable", .named "luaL_setfuncs"]
      else [])
  ++ [.named "openssl_register_lhash", .named "openssl_register_engine",
      .named "luaopen_bio", .lua_setfield "bio",
      .named "luaopen_asn1", .lua_setfield "asn1",
      .named "luaopen_digest", .lua_setfield "digest",
      .named "luaopen_cipher", .lua_setfield "cipher",
      .named "luaopen_hmac", .lua_setfield "hmac",
      .named "luaopen_pkey", .lua_setfield "pkey"]
  ++ (if cfg.EVP_PKEY_EC then [.named "luaopen_ec", .lua_setfield "ec"] else [])
  ++ [.named "luaopen_x509", .lua_setfield "x509",
      .named "luaopen_pkcs7", .lua_setfield "pkcs7",
      .named "luaopen_pkcs12", .lua_setfield "pkcs12",
      .named "luaopen_csr", .lua_setfield "csr",
      .named "luaopen_crl", .lua_setfield "crl",
      .named "luaopen_ocsp", .lua_setfield "ocsp"]
  ++ (if cfg.OPENSSL_HAVE_TS then [.named "luaopen_ts", .lua_setfield "ts"] else [])
  ++ [.named "luaopen_cms", .lua_setfield "cms",
      .named "luaopen_ssl", .lua_setfield "ssl",
      .named "luaopen_bn", .lua_setfield "bn",
      .named "luaopen_rsa",
      .named "luaopen_dsa",
      .named "luaopen_dh"]

/-- The keys under which sub-modules are stored in the namespace, in the order
of the `lua_setfield` calls. -/
def registrations (cfg : BuildConfig) : List String :=
  (luaopen_openssl cfg).filterMap (fun c => match c with
    | .lua_setfield k => some k
    | _ => none)

/-- Module `a` is registered before module `b`: both are registered, `a` earlier. -/
def registeredBefore (l : List String) (a b : String) : Prop :=
  a ∈ l ∧ b ∈ l ∧ l.indexOf a < l.indexOf b

instance (l : List String) (a b : String) : Decidable (registeredBefore l a b) := by
  unfold registeredBefore
  infer_instance

/-- The calls made by `k` calls of `luaopen_openssl` in a row. -/
def loadTimes (cfg : BuildConfig) : Nat → List Call
  | 0 => []
  | k + 1 => loadTimes cfg k ++ luaopen_openssl cfg

/-- Build used in the closed examples: Lua 5.1, all optional parts present,
not Windows. -/
def sampleBuild : BuildConfig :=
  { LOAD_ENGINE_CUSTOM := false, OPENSSL_SYS_WINDOWS := false, LUA_VERSION_NUM := 501,
    EVP_PKEY_EC := true, OPENSSL_HAVE_TS := true }

/-- Error text used in the closed examples. -/
def sampleText (_ : Nat) : LuaString := lstr "error"

/-! ## Theorems: the big-number conversions -/

theorem beBytesFuel_congr : ∀ (f1 f2 n : Nat), n ≤ f1 → n ≤ f2 →
    beBytesFuel f1 n = beBytesFuel f2 n := by
  intro f1
  induction f1 with
  | zero =>
    intro f2 n h1 _
    have hn : n = 0 := by omega
    subst hn
    cases f2 <;> simp [beBytesFuel]
  | succ f1 ih =>
    intro f2 n h1 h2
    cases f2 with
    | zero =>
      have hn : n = 0 := by omega
      subst hn
      simp [beBytesFuel]
    | succ f2 =>
      by_cases hn : n = 0
      · simp [beBytesFuel, hn]
      · have hd : n / 256 < n := Nat.div_lt_self (Nat.pos_of_ne_zero hn) (by decide)
        simp only [beBytesFuel, hn, if_false]
        rw [ih f2 (n / 256) (by omega) (by omega)]

theorem beBytes_zero : beBytes 0 = [] := rfl

theorem ofNat_val (x : Byte) : (Fin.ofNat x.val : Byte) = x :=
  Fin.ext (Nat.mod_eq_of_lt x.isLt)

theorem beBytes_pos (n : Nat) (hn : n ≠ 0) :
    beBytes n = beBytes (n / 256) ++ [Fin.ofNat (n % 256)] := by
  have hd : n / 256 < n := Nat.div_lt_self (Nat.pos_of_ne_zero hn) (by decide)
  obtain ⟨m, rfl⟩ : ∃ m, n = m + 1 := ⟨n - 1, by omega⟩
  show beBytesFuel (m + 1) (m + 1) = beBytesFuel ((m + 1) / 256) ((m + 1) / 256) ++ _
  simp only [beBytesFuel, hn, if_false]
  rw [beBytesFuel_congr m ((m + 1) / 256) ((m + 1) / 256) (by omega) (le_refl _)]

theorem beValue_append_single (s : List Byte) (x : Byte) :
    beValue (s ++ [x]) = beValue s * 256 + x.val := by
  simp [beValue, List.foldl_append]

theorem foldl_be_pos : ∀ (t : List Byte) (acc : Nat), 0 < acc →
    0 < t.foldl (fun a b => a * 256 + b.val) acc := by
  intro t
  induction t with
  | nil => intro acc h; simpa using h
  | cons y t ih =>
    intro acc h
    simp only [List.foldl_cons]
    exact ih _ (by omega)

theorem beValue_pos (s : List Byte) (hne : s ≠ []) (h0 : s.head? ≠ some 0) :
    0 < beValue s := by
  cases s with
  | nil => exact absurd rfl hne
  | cons x t =>
    have hx : x ≠ 0 := by
      intro h
      apply h0
      simp [h]
    have hxv : 0 < x.val := Nat.pos_of_ne_zero (fun h => hx (Fin.ext h))
    simp only [beValue, List.foldl_cons]
    exact foldl_be_pos t _ (by omega)

/-- The minimal big-endian bytes of the value of `s` are `s` itself, when `s`
has no leading zero byte. -/
theorem beBytes_beValue (s : List Byte) (h0 : s.head? ≠ some 0) :
    beBytes (beValue s) = s := by
  induction s using List.reverseRecOn with
  | nil => rfl
  | append_singleton s x ih =>
    rw [beValue_append_single]
    have hx : x.val < 256 := x.isLt
    by_cases hs : s = []
    · subst hs
      have hxne : x ≠ 0 := by
        intro h
        apply h0
        simp [h]
      have hxv : x.val ≠ 0 := fun h => hxne (Fin.ext h)
      have hv : beValue ([] : List Byte) = 0 := rfl
      rw [hv, beBytes_pos _ (by omega)]
      have h1 : (0 * 256 + x.val) / 256 = 0 := by omega
      have h2 : (0 * 256 + x.val) % 256 = x.val := by omega
      rw [h1, h2, beBytes_zero, ofNat_val]
    · have hh : s.head? ≠ some 0 := by
        cases s with
        | nil => exact absurd rfl hs
        | cons y t => simpa using h0
      have hp := beValue_pos s hs hh
      rw [beBytes_pos _ (by omega)]
      have h1 : (beValue s * 256 + x.val) / 256 = beValue s := by omega
      have h2 : (beValue s * 256 + x.val) % 256 = x.val := by omega
      rw [h1, h2, ih hh, ofNat_val]

theorem lowerHexChar_spec : ∀ d : Fin 16,
    hexVal (tolower (hexChar d.val)) = d.val ∧ isxdigit (tolower (hexChar d.val)) = true ∧
    tolower (hexChar d.val) ≠ 0 ∧ tolower (hexChar d.val) ≠ 45 := by
  decide

theorem lowerHexChar_nat (d : Nat) (hd : d < 16) :
    hexVal (tolower (hexChar d)) = d ∧ isxdigit (tolower (hexChar d)) = true ∧
    tolower (hexChar d) ≠ 0 ∧ tolower (hexChar d) ≠ 45 :=
  lowerHexChar_spec ⟨d, hd⟩

theorem lowerHex_nil : lowerHex [] = [] := rfl

theorem lowerHex_cons (b : Byte) (bs : List Byte) :
    lowerHex (b :: bs) =
      tolower (hexChar (b.val / 16)) :: tolower (hexChar (b.val % 16)) :: lowerHex bs := by
  simp [lowerHex, strlwr]

theorem lowerHex_length (bs : List Byte) : (lowerHex bs).length = 2 * bs.length := by
  induction bs with
  | nil => rfl
  | cons b bs ih => rw [lowerHex_cons]; simp [ih]; omega

theorem lowerHex_chars (bs : List Byte) :
    ∀ c ∈ lowerHex bs, isxdigit c = true ∧ c ≠ 0 ∧ c ≠ 45 := by
  induction bs with
  | nil => intro c hc; simp [lowerHex_nil] at hc
  | cons b bs ih =>
    intro c hc
    have hb : b.val < 256 := b.isLt
    have h1 := lowerHexChar_nat (b.val / 16) (by omega)
    have h2 := lowerHexChar_nat (b.val % 16) (by omega)
    rw [lowerHex_cons] at hc
    rcases List.mem_cons.1 hc with rfl | hc
    · exact h1.2
    · rcases List.mem_cons.1 hc with rfl | hc
      · exact h2.2
      · exact ih c hc

theorem foldl_hex_lowerHex : ∀ (bs : List Byte) (acc : Nat),
    (lowerHex bs).foldl (fun a c => a * 16 + hexVal c) acc
      = bs.foldl (fun a b => a * 256 + b.val) acc := by
  intro bs
  induction bs with
  | nil => intro acc; rfl
  | cons b bs ih =>
    intro acc
    have hb : b.val < 256 := b.isLt
    have h1 := (lowerHexChar_nat (b.val / 16) (by omega)).1
    have h2 := (lowerHexChar_nat (b.val % 16) (by omega)).1
    rw [lowerHex_cons]
    simp only [List.foldl_cons]
    rw [h1, h2, ih]
    congr 1
    omega

theorem hexValue_lowerHex (bs : List Byte) : hexValue (lowerHex bs) = beValue bs :=
  foldl_hex_lowerHex bs 0

theorem cstr_of_no_nul (s : List Byte) (h : ∀ c ∈ s, c ≠ 0) : cstr s = s := by
  unfold cstr
  rw [List.takeWhile_eq_self_iff]
  intro c hc
  simpa using h c hc

/-- On a non-empty text of hexadecimal digits `BN_hex2bn` stores its value. -/
theorem BN_hex2bn_digits (r : Bool) (t : List Byte) (hne : t ≠ [])
    (hx : ∀ c ∈ t, isxdigit c = true) :
    BN_hex2bn r t = some { neg := false, mag := hexValue t } := by
  have hnul : ∀ c ∈ t, c ≠ 0 := by
    intro c hc h0
    have := hx c hc
    rw [h0] at this
    exact absurd this (by decide)
  unfold BN_hex2bn
  rw [cstr_of_no_nul t hnul]
  cases t with
  | nil => exact absurd rfl hne
  | cons c rest =>
    have hc45 : (c == 45) = false := by
      have := hx c (List.mem_cons_self _ _)
      by_contra h
      have hc : c = 45 := by simpa using h
      rw [hc] at this
      exact absurd this (by decide)
    have htw : List.takeWhile isxdigit (c :: rest) = c :: rest :=
      List.takeWhile_eq_self_iff.2 hx
    simp only [hc45, Bool.false_eq_true, if_false, htw]
    simp

theorem take_set_self {α : Type} (l : List α) (n : Nat) (a : α) :
    (l.set n a).take n = l.take n := by
  induction l generalizing n with
  | nil => simp
  | cons x l ih => cases n <;> simp [List.set, ih]

theorem beBytes_length_le : ∀ (m n : Nat), n < 256 ^ m → (beBytes n).length ≤ m := by
  intro m
  induction m with
  | zero =>
    intro n h
    have hn : n = 0 := by simpa using h
    subst hn
    simp [beBytes_zero]
  | succ m ih =>
    intro n h
    by_cases hn : n = 0
    · subst hn
      simp [beBytes_zero]
    · rw [beBytes_pos n hn]
      have hd : n / 256 < 256 ^ m := by
        rw [Nat.div_lt_iff_lt_mul (by decide)]
        rw [pow_succ] at h
        exact h
      have := ih (n / 256) hd
      simp
      exact this

theorem hexVal_lt (c : Byte) : hexVal c < 16 := by
  have hc : c.val < 256 := c.isLt
  unfold hexVal
  split_ifs <;> omega

theorem foldl_hex_lt : ∀ (ds : List Byte) (acc : Nat),
    ds.foldl (fun a c => a * 16 + hexVal c) acc < (acc + 1) * 16 ^ ds.length := by
  intro ds
  induction ds with
  | nil => intro acc; simp
  | cons c ds ih =>
    intro acc
    simp only [List.foldl_cons, List.length_cons]
    have h1 := ih (acc * 16 + hexVal c)
    have h2 := hexVal_lt c
    have h3 : (acc * 16 + hexVal c + 1) * 16 ^ ds.length ≤ (acc + 1) * 16 * 16 ^ ds.length :=
      Nat.mul_le_mul_right _ (by omega)
    have h4 : (acc + 1) * 16 ^ (ds.length + 1) = (acc + 1) * 16 * 16 ^ ds.length := by
      rw [pow_succ]; ring
    omega

theorem hexValue_lt (ds : List Byte) : hexValue ds < 16 ^ ds.length := by
  have := foldl_hex_lt ds 0
  simpa [hexValue] using this

/-- The bytes of a number read from at most `L` hexadecimal digits fit into
`L / 2 + 1` bytes. -/
theorem beBytes_hexValue_length (ds : List Byte) (L : Nat) (h : ds.length ≤ L) :
    (beBytes (hexValue ds)).length ≤ L / 2 + 1 := by
  apply beBytes_length_le
  have h1 := hexValue_lt ds
  have h2 : 16 ^ ds.length ≤ 16 ^ (2 * (L / 2 + 1)) :=
    Nat.pow_le_pow_right (by decide) (by omega)
  have h3 : (256 : Nat) ^ (L / 2 + 1) = 16 ^ (2 * (L / 2 + 1)) := by
    rw [pow_mul]; norm_num
  omega

theorem cstr_length_le (a : List Byte) : (cstr a).length ≤ a.length :=
  (List.takeWhile_sublist _).length_le

/-- What `BN_hex2bn` stores: the value of a run of at most `a.length` digits. -/
theorem BN_hex2bn_some (r : Bool) (a : List Byte) (B : BIGNUM) (h : BN_hex2bn r a = some B) :
    ∃ ds : List Byte, ds.length ≤ a.length ∧ B.mag = hexValue ds := by
  unfold BN_hex2bn at h
  have hl := cstr_length_le a
  cases hc : cstr a with
  | nil => rw [hc] at h; simp at h
  | cons c rest =>
    rw [hc] at h hl
    simp only at h
    split_ifs at h with h1 h2
    · refine ⟨List.takeWhile isxdigit rest, ?_, ?_⟩
      · have := (List.takeWhile_sublist isxdigit (l := rest)).length_le
        simp at hl
        omega
      · cases h; rfl
    · refine ⟨List.takeWhile isxdigit (c :: rest), ?_, ?_⟩
      · have := (List.takeWhile_sublist isxdigit (l := c :: rest)).length_le
        omega
      · cases h; rfl

theorem BN_bn2bin_fits (r : Bool) (a : List Byte) (B : BIGNUM) (h : BN_hex2bn r a = some B) :
    (BN_bn2bin B).length ≤ a.length / 2 + 1 := by
  obtain ⟨ds, hds, hm⟩ := BN_hex2bn_some r a B h
  unfold BN_bn2bin
  rw [hm]
  exact beBytes_hexValue_length ds a.length hds

theorem malloc_length (junk : Nat → Byte) (n : Nat) : (malloc junk n).length = n := by
  simp [malloc]

/-- The decode branch of `openssl_hex` once `BN_hex2bn` has stored a number:
the first `l / 2` bytes of the block, which `BN_bn2bin` has overwritten from
its start. -/
theorem openssl_hex_decode_eq (H : Host) (r : Bool) (junk : Nat → Byte) (t : LuaString)
    (B : BIGNUM) (hB : BN_hex2bn r t = some B) :
    openssl_hex H r junk [.string t, .boolean false] =
      .returned [.string ((BN_bn2bin B ++
        (malloc junk (t.length / 2 + 1)).drop (BN_bn2bin B).length).take (t.length / 2))] := by
  have hfit := BN_bn2bin_fits r t B hB
  simp [openssl_hex, arg, luaL_checklstring, lua_isnoneornil, lua_toboolean, hB,
    writeAt0, malloc_length, hfit, take_set_self]

/-- The encode branch of `openssl_hex` on bytes without a leading zero byte. -/
theorem openssl_hex_encode_eq (H : Host) (r : Bool) (junk : Nat → Byte) (b : LuaString)
    (hne : b ≠ []) (h0 : b.head? ≠ some 0) :
    openssl_hex H r junk [.string b, .boolean true] = .returned [.string (lowerHex b)] := by
  have hmag : beValue b ≠ 0 := Nat.pos_iff_ne_zero.1 (beValue_pos b hne h0)
  have hhex : strlwr (BN_bn2hex (BN_bin2bn b)) = lowerHex b := by
    simp [BN_bn2hex, BN_bin2bn, hmag, beBytes_beValue b h0, lowerHex]
  have hlen : strlen (lowerHex b) = (lowerHex b).length := by
    unfold strlen
    rw [cstr_of_no_nul]
    intro c hc
    exact (lowerHex_chars b c hc).2.1
  simp [openssl_hex, arg, luaL_checklstring, lua_isnoneornil, lua_toboolean, hhex, hlen]

theorem openssl_hex_decode_null (H : Host) (r : Bool) (junk : Nat → Byte) (t : LuaString)
    (hB : BN_hex2bn r t = none) :
    openssl_hex H r junk [.string t, .boolean false] = .fault := by
  simp [openssl_hex, arg, luaL_checklstring, lua_isnoneornil, lua_toboolean, hB]

/-- The string pushed by the decode branch has `l / 2` bytes. -/
theorem decode_out_length (r : Bool) (junk : Nat → Byte) (t : LuaString) (B : BIGNUM)
    (hB : BN_hex2bn r t = some B) :
    ((BN_bn2bin B ++ (malloc junk (t.length / 2 + 1)).drop (BN_bn2bin B).length).take
      (t.length / 2)).length = t.length / 2 := by
  have hfit := BN_bn2bin_fits r t B hB
  simp [malloc_length]
  omega

/-- A text that starts with a hexadecimal digit makes `BN_hex2bn` store a number. -/
theorem BN_hex2bn_of_head_digit (r : Bool) (c : Byte) (rest : List Byte)
    (hc : isxdigit c = true) : ∃ B, BN_hex2bn r (c :: rest) = some B := by
  have hc0 : c ≠ 0 := by
    intro h; rw [h] at hc; exact absurd hc (by decide)
  have hc45 : (c == 45) = false := by
    by_contra h
    have h45 : c = 45 := by simpa using h
    rw [h45] at hc
    exact absurd hc (by decide)
  have hcs : cstr (c :: rest) = c :: cstr rest := by
    simp [cstr, List.takeWhile_cons, hc0]
  unfold BN_hex2bn
  rw [hcs]
  simp [hc45, List.takeWhile_cons, hc]

/-- C1: for every non-empty byte sequence `b` whose first byte is not zero,
encoding `b` with `hex(b, true)` gives a text `t`, and decoding that text with
`hex(t, false)` gives back exactly `b`, whatever the allocator left in the
decode buffer. -/
theorem hex_decode_encode_roundtrip (H : Host) (r : Bool) (junk junk2 : Nat → Byte)
    (b : LuaString) (hne : b ≠ []) (h0 : b.head? ≠ some 0) :
    ∃ t : LuaString,
      openssl_hex H r junk [.string b, .boolean true] = .returned [.string t] ∧
      openssl_hex H r junk2 [.string t, .boolean false] = .returned [.string b] := by
  refine ⟨lowerHex b, openssl_hex_encode_eq H r junk b hne h0, ?_⟩
  have hlen := lowerHex_length b
  have htne : lowerHex b ≠ [] := by
    intro h
    rw [h] at hlen
    cases b with
    | nil => exact hne rfl
    | cons x xs => simp at hlen
  have hB := BN_hex2bn_digits r (lowerHex b) htne (fun c hc => (lowerHex_chars b c hc).1)
  rw [openssl_hex_decode_eq H r junk2 (lowerHex b) _ hB]
  have hbytes : BN_bn2bin { neg := false, mag := hexValue (lowerHex b) } = b := by
    unfold BN_bn2bin
    simp only [hexValue_lowerHex]
    exact beBytes_beValue b h0
  rw [hbytes, hlen]
  have h2 : 2 * b.length / 2 = b.length := by omega
  rw [h2, List.take_left]

/-- Instance of C1 at the bytes `01 02 ff`. -/
theorem hex_decode_encode_roundtrip_witness :
    ([1, 2, 255] : LuaString) ≠ [] ∧ ([1, 2, 255] : LuaString).head? ≠ some 0 ∧
    ∃ t : LuaString,
      openssl_hex plainHost false (fun _ => 0xAA) [.string [1, 2, 255], .boolean true]
        = .returned [.string t] ∧
      openssl_hex plainHost false (fun _ => 0x55) [.string t, .boolean false]
        = .returned [.string [1, 2, 255]] :=
  ⟨by decide, by decide,
    hex_decode_encode_roundtrip plainHost false (fun _ => 0xAA) (fun _ => 0x55) [1, 2, 255]
      (by decide) (by decide)⟩

/-- C6, as the code has it: at the odd-length text "abc", and at the text "1g"
with a character that is no hexadecimal digit, `hex(text, false)` raises no
error and returns a byte string. -/
theorem hex_decode_malformed_counterexample :
    openssl_hex plainHost false (fun _ => 0xAA) [.string (lstr "abc"), .boolean false]
      = .returned [.string [0x0a]] ∧
    openssl_hex plainHost false (fun _ => 0xAA) [.string (lstr "1g"), .boolean false]
      = .returned [.string [0x01]] := by
  decide

/-- C6 amended: `hex(text, false)` validates nothing. For every text it either
faults or returns a byte string of `floor(length / 2)` bytes, and never raises
an error; for every text whose first character is a hexadecimal digit, texts of
odd length and texts with other characters further on included, it returns a
byte string of `floor(length / 2)` bytes. -/
theorem hex_decode_no_validation (H : Host) (r : Bool) (junk : Nat → Byte) (t : LuaString) :
    (openssl_hex H r junk [.string t, .boolean false] = .fault ∨
      ∃ out : LuaString, openssl_hex H r junk [.string t, .boolean false]
        = .returned [.string out] ∧ out.length = t.length / 2) ∧
    (∀ (c : Byte) (rest : LuaString), t = c :: rest → isxdigit c = true →
      ∃ out : LuaString, openssl_hex H r junk [.string t, .boolean false]
        = .returned [.string out] ∧ out.length = t.length / 2) := by
  constructor
  · cases hB : BN_hex2bn r t with
    | none => exact Or.inl (openssl_hex_decode_null H r junk t hB)
    | some B =>
      exact Or.inr ⟨_, openssl_hex_decode_eq H r junk t B hB, decode_out_length r junk t B hB⟩
  · intro c rest ht hc
    subst ht
    obtain ⟨B, hB⟩ := BN_hex2bn_of_head_digit r c rest hc
    exact ⟨_, openssl_hex_decode_eq H r junk _ B hB, decode_out_length r junk _ B hB⟩

/-- Instance of the amended C6 at the text "1g". -/
theorem hex_decode_no_validation_witness :
    lstr "1g" = 49 :: [103] ∧ isxdigit 49 = true ∧ isxdigit 103 = false ∧
    ∃ out : LuaString,
      openssl_hex plainHost false (fun _ => 0xAA) [.string (lstr "1g"), .boolean false]
        = .returned [.string out] ∧ out.length = (lstr "1g").length / 2 :=
  ⟨by decide, by decide, by decide,
    (hex_decode_no_validation plainHost false (fun _ => 0xAA) (lstr "1g")).2
      49 [103] (by decide) (by decide)⟩

theorem errorCalls_nil (errText : Nat → LuaString) : ∀ k : Nat,
    errorCalls errText k [] = (List.replicate k (.returned []), []) := by
  intro k
  induction k with
  | zero => rfl
  | succ k ih =>
    have h1 : openssl_error_string errText [] [.boolean false]
        = { result := .returned [], queue := [], printed := [] } := rfl
    simp only [errorCalls, h1, ih, List.replicate_succ]

theorem not_isPair_empty : ¬ isPair (.returned []) := by
  rintro ⟨code, msg, h⟩
  cases h

/-- C3, as the code has it: with two errors queued, three calls of
`error(false)` give one pair and then two absent results; the second result is
not a pair. -/
theorem error_drain_counterexample :
    errorCalls sampleText 3 [5, 7]
      = ([errorPair sampleText 5, .returned [], .returned []], []) ∧
    ¬ (∀ r ∈ (errorCalls sampleText 3 [5, 7]).1.take 2, isPair r) := by
  have h : errorCalls sampleText 3 [5, 7]
      = ([errorPair sampleText 5, .returned [], .returned []], []) := by decide
  refine ⟨h, ?_⟩
  intro hall
  rw [h] at hall
  exact not_isPair_empty (hall (.returned []) (by simp))

/-- C3 amended: for every N >= 0 and every error queue holding N non-zero
error codes, calling `error(false)` N+1 times in a row yields min(N, 1)
results that are (code, message) pairs, namely the pair of the earliest error
when there is one, followed by absent results for all the remaining calls, and
the queue is empty afterwards. -/
theorem error_drain_first_only (errText : Nat → LuaString) (q : ErrQueue)
    (hq : ∀ c ∈ q, c ≠ 0) :
    errorCalls errText (q.length + 1) q
      = ((q.take 1).map (errorPair errText)
          ++ List.replicate (q.length + 1 - (q.take 1).length) (.returned []), []) := by
  cases q with
  | nil => rfl
  | cons c rest =>
    have hc : c ≠ 0 := hq c (List.mem_cons_self _ _)
    have h1 : openssl_error_string errText (c :: rest) [.boolean false]
        = { result := errorPair errText c, queue := [], printed := [] } := by
      simp [openssl_error_string, ERR_get_error, ERR_clear_error, lua_toboolean, arg, hc,
        errorPair]
    have h2 : errorCalls errText ((c :: rest).length + 1) (c :: rest)
        = ((openssl_error_string errText (c :: rest) [.boolean false]).result ::
            (errorCalls errText (c :: rest).length
              (openssl_error_string errText (c :: rest) [.boolean false]).queue).1,
           (errorCalls errText (c :: rest).length
              (openssl_error_string errText (c :: rest) [.boolean false]).queue).2) := rfl
    rw [h2, h1]
    simp only [errorCalls_nil]
    simp

/-- Instance of the amended C3 at a queue of two errors. -/
theorem error_drain_first_only_witness :
    (∀ c ∈ ([5, 7] : ErrQueue), c ≠ 0) ∧
    errorCalls sampleText 3 [5, 7]
      = ([errorPair sampleText 5] ++ List.replicate 2 (.returned []), []) :=
  ⟨by decide, error_drain_first_only sampleText [5, 7] (by decide)⟩

/-- C4: for every initial error queue and every argument list (so for verbose
true and for verbose false), the error queue is empty after one call of
`error`, and the call returned either nothing or a (code, message) pair. -/
theorem error_queue_empty_after_call (errText : Nat → LuaString) (q : ErrQueue)
    (args : List LuaValue) :
    (openssl_error_string errText q args).queue = [] ∧
    ((openssl_error_string errText q args).result = .returned [] ∨
      isPair (openssl_error_string errText q args).result) := by
  refine ⟨rfl, ?_⟩
  by_cases hv : (ERR_get_error q).1 = 0
  · left
    simp [openssl_error_string, hv]
  · right
    exact ⟨toLuaInteger (ERR_get_error q).1, errorMessage errText (ERR_get_error q).1,
      by simp [openssl_error_string, hv]⟩

/-! ## Theorems: `openssl_random_bytes` -/

/-- In no call does `openssl_object` reach `OBJ_create`: the branch that holds
it is entered only when argument 2 is missing or nil, and there
`luaL_checkstring(L, 2)` raises. -/
theorem openssl_object_never_creates (H : Host) (T : ObjTable) (args : List LuaValue)
    (oid sn ln : LuaString) : Call.OBJ_create oid sn ln ∉ (openssl_object H T args).2 := by
  unfold openssl_object
  generalize arg args 1 = a1
  generalize arg args 2 = a2
  generalize arg args 3 = a3
  cases a2 <;> simp only [lua_isnoneornil, luaL_checklstring] <;>
    (repeat' split) <;> first | (simp; done) | simp_all

/-- C2, on the code: `openssl.object` dispatches the wrong way round. For every
OID text `t` that is not read as a number, `object(t)` without a second
argument raises an argument error on argument 2, and `object(t, name)` with a
second argument does the lookup: it returns nil or a handle, never a boolean,
and does not call `OBJ_create`. -/
theorem object_arity_dispatch_inverted (H : Host) (T : ObjTable) (t : LuaString)
    (hnum : lua_isnumber H (.string t) = false) :
    openssl_object H T [.string t] = (.argerror 2 "string expected, got no value", []) ∧
    (∀ name : LuaString,
      ((openssl_object H T [.string t, .string name]).1 = .returned [.nil] ∨
        ∃ obj, (openssl_object H T [.string t, .string name]).1
          = .returned [PUSH_OBJECT obj "openssl.asn1_object"]) ∧
      (∀ oid sn ln, Call.OBJ_create oid sn ln ∉
        (openssl_object H T [.string t, .string name]).2)) := by
  constructor
  · simp [openssl_object, arg, hnum, luaL_checklstring, lua_isnoneornil, luaL_typename]
  · intro name
    refine ⟨?_, fun oid sn ln => openssl_object_never_creates H T _ oid sn ln⟩
    simp only [openssl_object, arg, List.getD_cons_zero, hnum, luaL_checklstring,
      Nat.sub_self, Nat.reduceSub, List.getD_cons_succ, lua_isnoneornil]
    by_cases hn : T.OBJ_txt2nid (cstr t) = NID_undef
    · simp [hn]
    · cases ho : T.OBJ_nid2obj (T.OBJ_txt2nid (cstr t)) with
      | none => simp [hn, ho]
      | some obj =>
        simp only [hn, ho, ne_eq, not_false_eq_true, if_true, if_false]
        exact Or.inr ⟨obj, rfl⟩

/-- Instance of C2 on the code at the unregistered OID "1.2.3.4". -/
theorem object_arity_dispatch_inverted_witness :
    lua_isnumber plainHost (.string (lstr "1.2.3.4")) = false ∧
    openssl_object plainHost emptyTable [.string (lstr "1.2.3.4")]
      = (.argerror 2 "string expected, got no value", []) ∧
    openssl_object plainHost emptyTable [.string (lstr "1.2.3.4"), .string (lstr "myname")]
      = (.returned [.nil], [.OBJ_txt2nid (lstr "1.2.3.4")]) :=
  ⟨rfl, (object_arity_dispatch_inverted plainHost emptyTable (lstr "1.2.3.4") rfl).1,
    by decide⟩

/-! ## Theorems: `luaopen_openssl` -/

theorem registrations_eq (cfg : BuildConfig) :
    registrations cfg =
      ["bio", "asn1", "digest", "cipher", "hmac", "pkey"]
      ++ (if cfg.EVP_PKEY_EC then ["ec"] else [])
      ++ ["x509", "pkcs7", "pkcs12", "csr", "crl", "ocsp"]
      ++ (if cfg.OPENSSL_HAVE_TS then ["ts"] else [])
      ++ ["cms", "ssl", "bn"] := by
  simp only [registrations, luaopen_openssl, globalSetup, List.filterMap_append]
  split_ifs <;> rfl

/-- C8, as the code has it: `bn` is not registered before `x509` nor before
`ssl`; it is registered after both. -/
theorem registration_order_counterexample :
    ¬ registeredBefore (registrations sampleBuild) "bn" "x509" ∧
    ¬ registeredBefore (registrations sampleBuild) "bn" "ssl" ∧
    registeredBefore (registrations sampleBuild) "x509" "bn" ∧
    registeredBefore (registrations sampleBuild) "ssl" "bn" := by
  decide

/-- C8 amended: in every build, `luaopen_openssl` registers `bio` and `asn1`
before `x509` and before `ssl`, and registers `bn` after `x509` and after
`ssl`. -/
theorem registration_order (cfg : BuildConfig) :
    registeredBefore (registrations cfg) "bio" "x509" ∧
    registeredBefore (registrations cfg) "bio" "ssl" ∧
    registeredBefore (registrations cfg) "asn1" "x509" ∧
    registeredBefore (registrations cfg) "asn1" "ssl" ∧
    registeredBefore (registrations cfg) "x509" "bn" ∧
    registeredBefore (registrations cfg) "ssl" "bn" := by
  rw [registrations_eq]
  cases cfg.EVP_PKEY_EC <;> cases cfg.OPENSSL_HAVE_TS <;> decide

theorem count_setup_luaopen (cfg : BuildConfig) (c : Call) (hc : c ∈ globalSetup) :
    (luaopen_openssl cfg).count c = 1 := by
  simp only [globalSetup, List.mem_cons, List.mem_singleton, List.not_mem_nil, or_false] at hc
  simp only [luaopen_openssl, globalSetup, List.count_append]
  rcases hc with rfl | rfl | rfl | rfl | rfl | rfl | rfl | rfl <;>
    split_ifs <;> decide

/-- C9, as the code has it: a second call of `luaopen_openssl` performs every
one-time set-up step again; after two calls the thread-callback set-up has run
twice. -/
theorem global_setup_counterexample :
    loadTimes sampleBuild 2 = luaopen_openssl sampleBuild ++ luaopen_openssl sampleBuild ∧
    (∀ c ∈ globalSetup, c ∈ luaopen_openssl sampleBuild) ∧
    (loadTimes sampleBuild 2).count (.named "CRYPTO_thread_setup") = 2 := by
  decide

/-- C9 amended: `luaopen_openssl` keeps no record of having run. Every call
performs each of the set-up steps (thread-callback set-up, adding all ciphers
and digests, SSL library init, error-string loading, engine loading) once, so
over `k` calls in a row each step is performed `k` times. -/
theorem global_setup_every_call (cfg : BuildConfig) (k : Nat) (c : Call)
    (hc : c ∈ globalSetup) : (loadTimes cfg k).count c = k := by
  induction k with
  | zero => rfl
  | succ k ih =>
    simp only [loadTimes, List.count_append, ih, count_setup_luaopen cfg c hc]

/-- Instance of the amended C9: two calls, SSL library init. -/
theorem global_setup_every_call_witness :
    Call.named "SSL_library_init" ∈ globalSetup ∧
    (loadTimes sampleBuild 2).count (.named "SSL_library_init") = 2 :=
  ⟨by decide, global_setup_every_call sampleBuild 2 (.named "SSL_library_init") (by decide)⟩

end LuaOpenssl
